import Mathlib

/-
Shallow embedding of the poline-rs gradient engine (src/fns.rs, src/point.rs,
src/poline.rs) over the real numbers, together with theorems checking the
specification claims.  Floating-point arithmetic is idealised as exact real
arithmetic; machine integers (i32, usize) are modelled as Int and Nat.
-/

noncomputable section

namespace PolineRs

/-- Truncation toward zero, the rounding used by the f64 remainder operator. -/
def trunc (x : ℝ) : ℤ := if 0 ≤ x then ⌊x⌋ else ⌈x⌉

/-- The Rust f64 `%` operator (remainder of truncated division), over ℝ. -/
def fmod (x y : ℝ) : ℝ := x - y * (trunc (x / y) : ℝ)

/-- Rust f64::atan2(y, x), modelled as the complex argument of x + y·i; both
agree on all of ℝ², including atan2(0, 0) = 0. -/
def atan2 (y x : ℝ) : ℝ := Complex.arg (x + y * Complex.I)

/-- The transformer (easing) function type, `fn(f64, bool) -> f64` in
src/poline.rs (the defining module types.rs is not in the sources, but the
field types of struct Poline fix it). -/
abbrev Transformer : Type := ℝ → Bool → ℝ

/-- struct Point3 of src/point.rs. -/
@[ext]
structure Point3 where
  x : ℝ
  y : ℝ
  z : ℝ

/-- struct Hsl of src/point.rs. -/
@[ext]
structure Hsl where
  h : ℝ
  s : ℝ
  l : ℝ

/-- impl From<(Hsl, bool)> for Point3, src/point.rs lines 37-55. -/
def Point3.fromHsl (hsl : Hsl) (inverted : Bool) : Point3 :=
  let cx : ℝ := 0.5
  let cy : ℝ := 0.5
  let radians := hsl.h / (180 / Real.pi)
  let dist := (if inverted then 1 - hsl.l else hsl.l) * cx
  { x := cx + dist * Real.cos radians
    y := cy + dist * Real.sin radians
    z := hsl.s }

/-- impl From<(Point3, bool)> for Hsl, src/point.rs lines 64-86. -/
def Hsl.fromPoint (point : Point3) (inverted : Bool) : Hsl :=
  let cx : ℝ := 0.5
  let cy : ℝ := 0.5
  let radians := atan2 (point.y - cy) (point.x - cx)
  let deg := fmod (360 + radians * (180 / Real.pi)) 360
  let dist := Real.sqrt ((point.x - cx) ^ 2 + (point.y - cy) ^ 2)
  let l := dist / cx
  { h := deg
    s := point.z
    l := if inverted then 1 - l else l }

/-- linear_fn, src/fns.rs. -/
def linear_fn (t : ℝ) (_inverted : Bool) : ℝ := t

/-- quadratic_fn, src/fns.rs. -/
def quadratic_fn (t : ℝ) (inverted : Bool) : ℝ :=
  if inverted then 1 - (1 - t) ^ 2 else t ^ 2

/-- cubic_fn, src/fns.rs. -/
def cubic_fn (t : ℝ) (inverted : Bool) : ℝ :=
  if inverted then 1 - (1 - t) ^ 3 else t ^ 3

/-- quartic_fn, src/fns.rs. -/
def quartic_fn (t : ℝ) (inverted : Bool) : ℝ :=
  if inverted then 1 - (1 - t) ^ 4 else t ^ 4

/-- quintic_fn, src/fns.rs. -/
def quintic_fn (t : ℝ) (inverted : Bool) : ℝ :=
  if inverted then 1 - (1 - t) ^ 5 else t ^ 5

/-- sinusoidal_fn, src/fns.rs. -/
def sinusoidal_fn (t : ℝ) (inverted : Bool) : ℝ :=
  if inverted then 1 - Real.sin ((1 - t) * Real.pi / 2)
  else Real.sin (t * Real.pi / 2)

/-- asinusoidal_fn, src/fns.rs; f64::asin is modelled by Real.arcsin, with
which it agrees on the domain [-1, 1]. -/
def asinusoidal_fn (t : ℝ) (inverted : Bool) : ℝ :=
  if inverted then 1 - Real.arcsin (1 - t) / (Real.pi / 2)
  else Real.arcsin t / (Real.pi / 2)

/-- arc_fn, src/fns.rs. -/
def arc_fn (t : ℝ) (inverted : Bool) : ℝ :=
  if inverted then Real.sqrt (1 - (1 - t) ^ 2)
  else 1 - Real.sqrt (1 - t)

/-- smooth_step_fn, src/fns.rs. -/
def smooth_step_fn (t : ℝ) (_inverted : Bool) : ℝ := t ^ 2 * (3 - 2 * t)

/-- enum PositionFn, src/fns.rs. -/
inductive PositionFn
  | Linear
  | Quadratic
  | Cubic
  | Quartic
  | Quintic
  | Sinusoidal
  | Asinusoidal
  | Arc
  | SmoothStep

/-- PositionFn::get_fn, src/fns.rs. -/
def PositionFn.get_fn : PositionFn → Transformer
  | .Linear => linear_fn
  | .Quadratic => quadratic_fn
  | .Cubic => cubic_fn
  | .Quartic => quartic_fn
  | .Quintic => quintic_fn
  | .Sinusoidal => sinusoidal_fn
  | .Asinusoidal => asinusoidal_fn
  | .Arc => arc_fn
  | .SmoothStep => smooth_step_fn

/-- struct ColorPoint, src/point.rs lines 248-254. -/
@[ext]
structure ColorPoint where
  color : Hsl
  point : Point3
  inverted : Bool

/-- impl From<(Hsl, bool)> for ColorPoint, src/point.rs lines 288-296. -/
def ColorPoint.ofHsl (hsl : Hsl) (inverted : Bool) : ColorPoint :=
  { point := Point3.fromHsl hsl inverted
    color := hsl
    inverted := inverted }

/-- impl From<(Point3, bool)> for ColorPoint, src/point.rs lines 298-306. -/
def ColorPoint.ofPoint (point : Point3) (inverted : Bool) : ColorPoint :=
  { color := Hsl.fromPoint point inverted
    point := point
    inverted := inverted }

/-- ColorPoint::set_inverted, src/point.rs lines 257-259: it stores the flag
and touches neither representation. -/
def ColorPoint.set_inverted (c : ColorPoint) (inverted : Bool) : ColorPoint :=
  { c with inverted := inverted }

/-- ColorPoint::set_postion (sic), src/point.rs lines 261-265. -/
def ColorPoint.set_postion (c : ColorPoint) (point : Point3) : ColorPoint :=
  { c with color := Hsl.fromPoint point c.inverted, point := point }

/-- ColorPoint::set_hsl, src/point.rs lines 267-271. -/
def ColorPoint.set_hsl (c : ColorPoint) (hsl : Hsl) : ColorPoint :=
  { c with color := hsl, point := Point3.fromHsl hsl c.inverted }

/-- ColorPoint::shift_hue, src/point.rs lines 282-285: the hue moves by the
angle modulo 360 and the Cartesian point is re-derived from the new color
under the point's own flag. -/
def ColorPoint.shift_hue (c : ColorPoint) (angle : ℝ) : ColorPoint :=
  let color := { c.color with h := fmod (360 + (c.color.h + angle)) 360 }
  { c with color := color, point := Point3.fromHsl color c.inverted }

/-- vector_on_line, src/point.rs lines 167-185. -/
def vector_on_line (t : ℝ) (p1 p2 : Point3) (inverted : Bool)
    (fx fy fz : Transformer) : Point3 :=
  let tx := fx t inverted
  let ty := fy t inverted
  let tz := fz t inverted
  { x := (1 - tx) * p1.x + tx * p2.x
    y := (1 - ty) * p1.y + ty * p2.y
    z := (1 - tz) * p1.z + tz * p2.z }

/-- vectors_on_line, src/point.rs lines 187-202.  The i32 range 0..num_points
is empty when num_points is nonpositive, hence Int.toNat; num_points = 1
divides by zero (a latent defect left unguarded by the source). -/
def vectors_on_line (p1 p2 : Point3) (num_points : ℤ) (inverted : Bool)
    (fx fy fz : Transformer) : List Point3 :=
  (List.range num_points.toNat).map fun i =>
    vector_on_line ((i : ℝ) / ((num_points : ℝ) - 1)) p1 p2 inverted fx fy fz

/-- struct PartialPoint3, src/point.rs line 204 (a tuple struct; fields
fst/snd/thd stand for .0/.1/.2). -/
structure PartialPoint3 where
  fst : Option ℝ
  snd : Option ℝ
  thd : Option ℝ

/-- PartialPoint3::distance, src/point.rs lines 207-228. -/
def PartialPoint3.distance (self other : PartialPoint3)
    (hue_mode : Option Bool) : ℝ :=
  let a : ℝ :=
    match hue_mode.getD false, self.fst, other.fst with
    | true, some a, some b => min |a - b| (360 - |a - b|) / 360
    | false, some a, some b => a - b
    | _, _, _ => 0
  let b : ℝ :=
    match self.snd, other.snd with
    | some a, some b => b - a
    | _, _ => 0
  let c : ℝ :=
    match self.thd, other.thd with
    | some a, some b => b - a
    | _, _ => 0
  Real.sqrt (a * a + b * b + c * c)

/-- impl From<&Hsl> for PartialPoint3, src/point.rs lines 231-235. -/
def PartialPoint3.ofHsl (value : Hsl) : PartialPoint3 :=
  ⟨some value.h, some value.s, some value.l⟩

/-- impl From<&Point3> for PartialPoint3, src/point.rs lines 237-241. -/
def PartialPoint3.ofPoint (value : Point3) : PartialPoint3 :=
  ⟨some value.x, some value.y, some value.z⟩

/-- enum PointOrHsl, src/point.rs lines 243-246. -/
inductive PointOrHsl
  | Point (p : Point3)
  | Hsl (hsl : Hsl)

/-- The error enum of the crate.  poline.rs constructs the variants
InvalidAnchorColorCount and PointIndexOutOfBounds.  Modelled from the spec:
error.rs itself is not among the sources, and section 7 of the spec names a
third, distinct kind for a non-positive points-per-segment request, here
called InvalidPointsPerSegment. -/
inductive PolineError
  | InvalidAnchorColorCount
  | PointIndexOutOfBounds
  | InvalidPointsPerSegment
deriving DecidableEq

/-- struct Poline, src/poline.rs lines 10-20. -/
structure Poline where
  anchor_points : List ColorPoint
  num_points : ℤ
  pos_fn_x : Transformer
  pos_fn_y : Transformer
  pos_fn_z : Transformer
  inverted : Bool
  points : List (List ColorPoint)
  anchor_pairs : List (List ColorPoint)
  closed_loop : Bool

/-- A placeholder ColorPoint for List.getD: every getD below indexes within
bounds, so it is never read (Rust indexing would panic out of bounds). -/
def dummyColorPoint : ColorPoint := ColorPoint.ofHsl ⟨0, 0, 0⟩ false

/-- Poline::update_anchor_pairs, src/poline.rs lines 153-194.  The pairing
length `anchor_points.len() - 1` is an unsigned subtraction: with no anchors
and closed_loop off the call aborts (an overflow panic in debug builds; in
release the wrapped length makes the first index access panic).  The abort is
modelled as `none`. -/
def Poline.update_anchor_pairs (p : Poline) : Option Poline :=
  let n := p.anchor_points.length
  (if p.closed_loop then some n else if n = 0 then none else some (n - 1)).map
    fun anchor_points_length =>
      let anchor_pairs : List (List ColorPoint) :=
        (List.range anchor_points_length).map fun i =>
          [p.anchor_points.getD i dummyColorPoint,
            p.anchor_points.getD ((i + 1) % n) dummyColorPoint]
      let points : List (List ColorPoint) :=
        anchor_pairs.enum.map fun ip =>
          let p1 := ((ip.2.head?).map (·.point)).getD ⟨0, 0, 0⟩
          let p2 := ((ip.2.get? 1).map (·.point)).getD ⟨0, 0, 0⟩
          (vectors_on_line p1 p2 p.num_points (ip.1 % 2 == 0)
              p.pos_fn_x p.pos_fn_y p.pos_fn_z).map
            fun q => ColorPoint.ofPoint q p.inverted
      { p with points := points, anchor_pairs := anchor_pairs }

/-- struct PolineBuilder, src/poline.rs lines 22-30. -/
structure PolineBuilder where
  anchor_colors : List Hsl
  num_points : ℤ
  position_fn_x : Option Transformer
  position_fn_y : Option Transformer
  position_fn_z : Option Transformer
  closed_loop : Bool
  inverted : Bool

/-- PolineBuilder::build, src/poline.rs lines 68-103.  The inner Option
carries the abort possibility of the rebuild; with the anchor-count check
passed it is always `some`. -/
def PolineBuilder.build (b : PolineBuilder) :
    Except PolineError (Option Poline) :=
  if b.anchor_colors.length < 2 then .error .InvalidAnchorColorCount
  else
    .ok (Poline.update_anchor_pairs
      { anchor_points := b.anchor_colors.map fun c => ColorPoint.ofHsl c b.inverted
        num_points := b.num_points + 2
        pos_fn_x := b.position_fn_x.getD (PositionFn.get_fn .Sinusoidal)
        pos_fn_y := b.position_fn_y.getD (PositionFn.get_fn .Sinusoidal)
        pos_fn_z := b.position_fn_z.getD (PositionFn.get_fn .Sinusoidal)
        inverted := b.inverted
        points := []
        anchor_pairs := []
        closed_loop := b.closed_loop })

/-- Poline::set_num_points, src/poline.rs lines 200-208.  A request below 1
returns Err(InvalidAnchorColorCount) before touching any state; otherwise the
stored value is num + 2 and the caches are rebuilt. -/
def Poline.set_num_points (p : Poline) (num : ℤ) :
    Option (Except PolineError Unit × Poline) :=
  if num < 1 then some (.error .InvalidAnchorColorCount, p)
  else (Poline.update_anchor_pairs { p with num_points := num + 2 }).map
    fun q => (.ok (), q)

/-- Poline::set_position_fn, src/poline.rs lines 210-215. -/
def Poline.set_position_fn (p : Poline) (fns : Transformer × Transformer × Transformer) :
    Option Poline :=
  Poline.update_anchor_pairs
    { p with pos_fn_x := fns.1, pos_fn_y := fns.2.1, pos_fn_z := fns.2.2 }

/-- Poline::set_anchor_points, src/poline.rs lines 225-228. -/
def Poline.set_anchor_points (p : Poline) (pts : List ColorPoint) : Option Poline :=
  Poline.update_anchor_pairs { p with anchor_points := pts }

/-- Poline::add_anchor_point, src/poline.rs lines 230-246. -/
def Poline.add_anchor_point (p : Poline) (color_point : ColorPoint)
    (at_index : Option ℕ) : Option (ColorPoint × Poline) :=
  let point := color_point.set_inverted p.inverted
  let anchors :=
    match at_index with
    | some index => p.anchor_points.insertIdx index point
    | none => p.anchor_points ++ [point]
  (Poline.update_anchor_pairs { p with anchor_points := anchors }).map
    fun q => (point, q)

/-- Poline::remove_anchor_point, src/poline.rs lines 248-254.  The anchor is
removed and returned; update_anchor_pairs is not called. -/
def Poline.remove_anchor_point (p : Poline) (index : ℕ) :
    Except PolineError ColorPoint × Poline :=
  if p.anchor_points.length ≤ index then (.error .PointIndexOutOfBounds, p)
  else (.ok (p.anchor_points.getD index dummyColorPoint),
    { p with anchor_points := p.anchor_points.eraseIdx index })

/-- Poline::update_anchor_point, src/poline.rs lines 256-275.  The anchor is
removed, mutated through set_postion or set_hsl, and re-inserted at the same
index; update_anchor_pairs is not called. -/
def Poline.update_anchor_point (p : Poline) (index : ℕ) (update : PointOrHsl) :
    Except PolineError ColorPoint × Poline :=
  if p.anchor_points.length ≤ index then (.error .PointIndexOutOfBounds, p)
  else
    let out := p.anchor_points.getD index dummyColorPoint
    let out :=
      match update with
      | .Point point => out.set_postion point
      | .Hsl hsl => out.set_hsl hsl
    (.ok out,
      { p with anchor_points := (p.anchor_points.eraseIdx index).insertIdx index out })

/-- Iterator::min_by over an enumerated list with f64::total_cmp on the
second components; ties keep the first element, as Rust min_by does. -/
def minByVal : List (ℕ × ℝ) → Option (ℕ × ℝ) :=
  List.foldl
    (fun acc x =>
      match acc with
      | none => some x
      | some a => if x.2 < a.2 then some x else some a)
    none

/-- Poline::get_closest_anchor_point, src/poline.rs lines 277-306.  Every
anchor is compared in the representation matching the query, with hue_mode
passed as None (circular hue distance off). -/
def Poline.get_closest_anchor_point (p : Poline) (point_or_hsl : PointOrHsl) :
    Option (ColorPoint × ℝ) :=
  let distances : List ℝ :=
    match point_or_hsl with
    | .Point point =>
      p.anchor_points.map fun a =>
        (PartialPoint3.ofPoint a.point).distance (PartialPoint3.ofPoint point) none
    | .Hsl hsl =>
      p.anchor_points.map fun a =>
        (PartialPoint3.ofHsl a.color).distance (PartialPoint3.ofHsl hsl) none
  let min := (minByVal distances.enum).getD (p.anchor_points.length, 0)
  (p.anchor_points.get? min.1).map fun a => (a, min.2)

/-- Poline::set_closed_loop, src/poline.rs lines 312-315. -/
def Poline.set_closed_loop (p : Poline) (closed_loop : Bool) : Option Poline :=
  Poline.update_anchor_pairs { p with closed_loop := closed_loop }

/-- Poline::set_inverted, src/poline.rs lines 321-324. -/
def Poline.set_inverted (p : Poline) (inverted : Bool) : Option Poline :=
  Poline.update_anchor_pairs { p with inverted := inverted }

/-- Poline::flattened_points, src/poline.rs lines 326-341: the per-segment
sequences are concatenated and every element whose flat index is a nonzero
multiple of num_points is dropped.  `num_points as usize` is modelled by
Int.toNat (the claims only reach positive values well inside i32). -/
def Poline.flattened_points (p : Poline) : List ColorPoint :=
  p.points.flatten.enum.filterMap fun ip =>
    if ip.1 = 0 then some ip.2
    else if ip.1 % p.num_points.toNat = 0 then none
    else some ip.2

/-- Poline::shift_hue, src/poline.rs lines 358-362: a missing argument
defaults to 20; every anchor shifts its hue and the caches are rebuilt. -/
def Poline.shift_hue (p : Poline) (h_shift : Option ℝ) : Option Poline :=
  let val := h_shift.getD 20
  Poline.update_anchor_pairs
    { p with anchor_points := p.anchor_points.map fun a => a.shift_hue val }

/-! ## Concrete sample states used by the theorems below -/

/-- An open three-anchor engine state (linear easing, four points per
segment, caches initially empty). -/
def samplePoline : Poline :=
  { anchor_points := [ColorPoint.ofHsl ⟨0, 0.5, 0.5⟩ false,
      ColorPoint.ofHsl ⟨120, 0.5, 0.5⟩ false,
      ColorPoint.ofHsl ⟨240, 0.5, 0.5⟩ false]
    num_points := 4
    pos_fn_x := linear_fn
    pos_fn_y := linear_fn
    pos_fn_z := linear_fn
    inverted := false
    points := []
    anchor_pairs := []
    closed_loop := false }

/-- A builder holding a single anchor color. -/
def singleAnchorBuilder : PolineBuilder :=
  { anchor_colors := [⟨0, 0.5, 0.5⟩]
    num_points := 4
    position_fn_x := none
    position_fn_y := none
    position_fn_z := none
    closed_loop := false
    inverted := false }

/-- An engine state with no anchors. -/
def emptyPoline : Poline :=
  { anchor_points := []
    num_points := 4
    pos_fn_x := linear_fn
    pos_fn_y := linear_fn
    pos_fn_z := linear_fn
    inverted := false
    points := []
    anchor_pairs := []
    closed_loop := true }

/-- Anchor at hue 0 (saturation and lightness one half). -/
def hueAnchor0 : ColorPoint := ColorPoint.ofHsl ⟨0, 0.5, 0.5⟩ false

/-- Anchor at hue 180 (saturation and lightness one half). -/
def hueAnchor180 : ColorPoint := ColorPoint.ofHsl ⟨180, 0.5, 0.5⟩ false

/-- An engine state with anchors at hues 0 and 180. -/
def twoHuePoline : Poline :=
  { anchor_points := [hueAnchor0, hueAnchor180]
    num_points := 4
    pos_fn_x := sinusoidal_fn
    pos_fn_y := sinusoidal_fn
    pos_fn_z := sinusoidal_fn
    inverted := false
    points := []
    anchor_pairs := []
    closed_loop := false }

/-- A sample ColorPoint with lightness 1, where flipping the inversion flag
moves the derived Cartesian point. -/
def c3Sample : ColorPoint := ColorPoint.ofHsl ⟨0, 0, 1⟩ false

/-- A single anchor at hue 0 for the hue-shift witness. -/
def c9Anchor : ColorPoint := ColorPoint.ofHsl ⟨0, 0.5, 0.5⟩ false

/-- A closed single-anchor engine with zero stored num_points, whose rebuild
is fully explicit. -/
def c9Start : Poline :=
  { anchor_points := [c9Anchor]
    num_points := 0
    pos_fn_x := linear_fn
    pos_fn_y := linear_fn
    pos_fn_z := linear_fn
    inverted := false
    points := [[]]
    anchor_pairs := [[c9Anchor, c9Anchor]]
    closed_loop := true }

/-- c9Start after one hue shift by 180. -/
def c9Mid : Poline :=
  { c9Start with
    anchor_points := [c9Anchor.shift_hue 180]
    points := [[]]
    anchor_pairs := [[c9Anchor.shift_hue 180, c9Anchor.shift_hue 180]] }

/-- c9Start after two hue shifts by 180. -/
def c9End : Poline :=
  { c9Start with
    anchor_points := [(c9Anchor.shift_hue 180).shift_hue 180]
    points := [[]]
    anchor_pairs := [[(c9Anchor.shift_hue 180).shift_hue 180,
      (c9Anchor.shift_hue 180).shift_hue 180]] }

/-- The builder of the C2 scenario: three anchors, open, defaults everywhere
else, and an intermediate-point count of 2, so that the stored num_points
(points per segment including both endpoints, the builder adds 2 for the
anchor endpoints) is 4. -/
def openTriBuilder (A B C : Hsl) : PolineBuilder :=
  { anchor_colors := [A, B, C]
    num_points := 2
    position_fn_x := none
    position_fn_y := none
    position_fn_z := none
    closed_loop := false
    inverted := false }

/-- The engine the C2 builder produces: anchors for A, B, C, stored
num_points 4, default sine easing on all axes, pairs (A,B) and (B,C), and
one four-point sequence per pair (segment 0 with the alternating easing flag
on, segment 1 with it off). -/
def c2Result (A B C : Hsl) : Poline :=
  { anchor_points := [ColorPoint.ofHsl A false, ColorPoint.ofHsl B false,
      ColorPoint.ofHsl C false]
    num_points := 4
    pos_fn_x := sinusoidal_fn
    pos_fn_y := sinusoidal_fn
    pos_fn_z := sinusoidal_fn
    inverted := false
    points := [(vectors_on_line (Point3.fromHsl A false) (Point3.fromHsl B false)
        4 true sinusoidal_fn sinusoidal_fn sinusoidal_fn).map
          fun q => ColorPoint.ofPoint q false,
      (vectors_on_line (Point3.fromHsl B false) (Point3.fromHsl C false)
        4 false sinusoidal_fn sinusoidal_fn sinusoidal_fn).map
          fun q => ColorPoint.ofPoint q false]
    anchor_pairs := [[ColorPoint.ofHsl A false, ColorPoint.ofHsl B false],
      [ColorPoint.ofHsl B false, ColorPoint.ofHsl C false]]
    closed_loop := false }

/-! ## Helper lemmas -/

theorem fmod_eq_sub (x : ℝ) (k : ℤ) (hx : 0 ≤ x)
    (h0 : 360 * k ≤ x) (h1 : x < 360 * (k + 1)) :
    fmod x 360 = x - 360 * k := by
  have h360 : (0:ℝ) < 360 := by norm_num
  have hfloor : ⌊x / 360⌋ = k := by
    rw [Int.floor_eq_iff]
    constructor
    · rw [le_div_iff h360]
      linarith
    · rw [div_lt_iff h360]
      linarith
  have htr : trunc (x / 360) = k := by
    rw [trunc, if_pos (by positivity)]
    exact hfloor
  rw [fmod, htr]

theorem pi_div_pos : (0:ℝ) < 180 / Real.pi := by
  have := Real.pi_pos
  positivity

/-- The degree normalisation of Hsl.fromPoint undoes the degree-to-radian
conversion of Point3.fromHsl: for a hue in [0, 360) and a positive radius,
atan2 on the produced coordinates recovers the hue exactly. -/
theorem deg_recovery (h r : ℝ) (h0 : 0 ≤ h) (h1 : h < 360) (hr : 0 < r) :
    fmod (360 + atan2 (r * Real.sin (h / (180 / Real.pi)))
        (r * Real.cos (h / (180 / Real.pi))) * (180 / Real.pi)) 360 = h := by
  set θ : ℝ := h / (180 / Real.pi) with hθdef
  have hpi := Real.pi_pos
  have hpd := pi_div_pos
  have hθh : θ * (180 / Real.pi) = h := div_mul_cancel₀ h (ne_of_gt hpd)
  have hcast : ((r * Real.cos θ : ℝ) : ℂ) + ((r * Real.sin θ : ℝ) : ℂ) * Complex.I
      = (r : ℂ) * (Complex.cos (θ : ℂ) + Complex.sin (θ : ℂ) * Complex.I) := by
    rw [← Complex.ofReal_cos, ← Complex.ofReal_sin]
    push_cast
    ring
  by_cases hcase : h ≤ 180
  · have hθmem : θ ∈ Set.Ioc (-Real.pi) Real.pi := by
      constructor
      · have : 0 ≤ θ := by positivity
        linarith
      · rw [hθdef, div_le_iff hpd]
        calc h ≤ 180 := hcase
        _ = Real.pi * (180 / Real.pi) := by field_simp
    have harg : atan2 (r * Real.sin θ) (r * Real.cos θ) = θ := by
      rw [atan2, hcast, Complex.arg_real_mul _ hr,
        Complex.arg_cos_add_sin_mul_I hθmem]
    rw [harg, hθh, fmod_eq_sub (360 + h) 1 (by linarith) (by push_cast; linarith)
      (by push_cast; linarith)]
    ring
  · push_neg at hcase
    have hθgt : Real.pi < θ := by
      rw [hθdef, lt_div_iff hpd]
      calc Real.pi * (180 / Real.pi) = 180 := by field_simp
      _ < h := hcase
    have hθlt : θ < 2 * Real.pi := by
      rw [hθdef, div_lt_iff hpd]
      calc h < 360 := h1
      _ = 2 * Real.pi * (180 / Real.pi) := by field_simp; ring
    set φ : ℝ := θ - 2 * Real.pi with hφdef
    have hθφ : θ = φ + (1 : ℤ) * (2 * Real.pi) := by
      rw [hφdef]
      push_cast
      ring
    have hφmem : φ ∈ Set.Ioc (-Real.pi) Real.pi := by
      constructor
      · rw [hφdef]; linarith
      · rw [hφdef]; linarith
    have hcos : Real.cos θ = Real.cos φ := by
      rw [hθφ, Real.cos_add_int_mul_two_pi]
    have hsin : Real.sin θ = Real.sin φ := by
      rw [hθφ, Real.sin_add_int_mul_two_pi]
    have hcastφ : ((r * Real.cos θ : ℝ) : ℂ) + ((r * Real.sin θ : ℝ) : ℂ) * Complex.I
        = (r : ℂ) * (Complex.cos (φ : ℂ) + Complex.sin (φ : ℂ) * Complex.I) := by
      rw [hcos, hsin, ← Complex.ofReal_cos, ← Complex.ofReal_sin]
      push_cast
      ring
    have harg : atan2 (r * Real.sin θ) (r * Real.cos θ) = φ := by
      rw [atan2, hcastφ, Complex.arg_real_mul _ hr,
        Complex.arg_cos_add_sin_mul_I hφmem]
    have hφval : φ * (180 / Real.pi) = h - 360 := by
      rw [hφdef, sub_mul, hθh]
      field_simp
      ring
    rw [harg, hφval]
    have : 360 + (h - 360) = h := by ring
    rw [this, fmod_eq_sub h 0 h0 (by push_cast; linarith) (by push_cast; linarith)]
    ring

/-- Hsl to Point3 and back is the identity when the hue lies in [0, 360) and
the polar radius is positive (lightness below 1 when inverted, above 0
otherwise). -/
theorem hsl_point_hsl (hsl : Hsl) (inv : Bool)
    (h0 : 0 ≤ hsl.h) (h1 : hsl.h < 360)
    (hr : 0 < (if inv then 1 - hsl.l else hsl.l)) :
    Hsl.fromPoint (Point3.fromHsl hsl inv) inv = hsl := by
  obtain ⟨h, s, l⟩ := hsl
  set lr : ℝ := if inv then 1 - l else l with hlr
  set r : ℝ := lr * 0.5 with hrdef
  have hrpos : 0 < r := by
    rw [hrdef]
    have : (0:ℝ) < 0.5 := by norm_num
    exact mul_pos hr this
  set θ : ℝ := h / (180 / Real.pi) with hθdef
  have hx : (Point3.fromHsl ⟨h, s, l⟩ inv).x - 0.5 = r * Real.cos θ := by
    simp only [Point3.fromHsl, hrdef, hlr, hθdef]
    ring
  have hy : (Point3.fromHsl ⟨h, s, l⟩ inv).y - 0.5 = r * Real.sin θ := by
    simp only [Point3.fromHsl, hrdef, hlr, hθdef]
    ring
  have hz : (Point3.fromHsl ⟨h, s, l⟩ inv).z = s := rfl
  have hdist : Real.sqrt (((Point3.fromHsl ⟨h, s, l⟩ inv).x - 0.5) ^ 2
      + ((Point3.fromHsl ⟨h, s, l⟩ inv).y - 0.5) ^ 2) = r := by
    rw [hx, hy]
    have hsum : (r * Real.cos θ) ^ 2 + (r * Real.sin θ) ^ 2 = r ^ 2 := by
      have hpyth := Real.sin_sq_add_cos_sq θ
      nlinarith [hpyth]
    rw [hsum, Real.sqrt_sq hrpos.le]
  simp only [Hsl.fromPoint]
  ext
  · show fmod (360 + atan2 ((Point3.fromHsl ⟨h, s, l⟩ inv).y - 0.5)
      ((Point3.fromHsl ⟨h, s, l⟩ inv).x - 0.5) * (180 / Real.pi)) 360 = h
    rw [hx, hy]
    exact deg_recovery h r h0 h1 hrpos
  · exact hz
  · show (if inv then
        1 - Real.sqrt (((Point3.fromHsl ⟨h, s, l⟩ inv).x - 0.5) ^ 2
          + ((Point3.fromHsl ⟨h, s, l⟩ inv).y - 0.5) ^ 2) / 0.5
      else Real.sqrt (((Point3.fromHsl ⟨h, s, l⟩ inv).x - 0.5) ^ 2
          + ((Point3.fromHsl ⟨h, s, l⟩ inv).y - 0.5) ^ 2) / 0.5) = l
    rw [hdist, hrdef]
    cases inv with
    | false =>
      simp only [Bool.false_eq_true, if_false] at hlr ⊢
      rw [hlr]
      norm_num
    | true =>
      simp only [if_true] at hlr ⊢
      rw [hlr]
      norm_num

/-- Point3 to Hsl and back is the identity for every point and either flag:
the stored angle differs from the original by a whole number of turns and the
stored radius is the exact distance from the centre. -/
theorem point_hsl_point (p : Point3) (inv : Bool) :
    Point3.fromHsl (Hsl.fromPoint p inv) inv = p := by
  obtain ⟨x, y, z⟩ := p
  have hpi := Real.pi_pos
  have hpd := pi_div_pos
  set u : ℝ := x - 0.5 with hu
  set v : ℝ := y - 0.5 with hv
  set d : ℝ := Real.sqrt (u ^ 2 + v ^ 2) with hd
  have hdnn : 0 ≤ d := Real.sqrt_nonneg _
  set θ : ℝ := atan2 v u with hθ
  set k : ℤ := trunc ((360 + θ * (180 / Real.pi)) / 360) with hk
  have hfromPt : Hsl.fromPoint ⟨x, y, z⟩ inv =
      ⟨360 + θ * (180 / Real.pi) - 360 * k, z,
        if inv then 1 - d / 0.5 else d / 0.5⟩ := by
    simp only [Hsl.fromPoint, fmod, hθ, hu, hv, hd, hk]
  have hlr : (if inv then
      1 - (if inv then 1 - d / 0.5 else d / 0.5) else
      (if inv then 1 - d / 0.5 else d / 0.5)) * 0.5 = d := by
    cases inv <;> simp <;> ring
  have hrad : (360 + θ * (180 / Real.pi) - 360 * k) / (180 / Real.pi)
      = θ + ((1 - k : ℤ) : ℝ) * (2 * Real.pi) := by
    rw [div_eq_iff (ne_of_gt hpd)]
    push_cast
    field_simp
    ring
  have hcosrad : Real.cos ((360 + θ * (180 / Real.pi) - 360 * k) / (180 / Real.pi))
      = Real.cos θ := by
    rw [hrad, Real.cos_add_int_mul_two_pi]
  have hsinrad : Real.sin ((360 + θ * (180 / Real.pi) - 360 * k) / (180 / Real.pi))
      = Real.sin θ := by
    rw [hrad, Real.sin_add_int_mul_two_pi]
  have hdcos : d * Real.cos θ = u ∧ d * Real.sin θ = v := by
    by_cases hzero : u = 0 ∧ v = 0
    · obtain ⟨hu0, hv0⟩ := hzero
      have hd0 : d = 0 := by
        rw [hd, hu0, hv0]
        simp
      rw [hd0, hu0, hv0]
      norm_num
    · have hz : (↑u + ↑v * Complex.I : ℂ) ≠ 0 := by
        intro hc
        apply hzero
        have hre := congrArg Complex.re hc
        have him := congrArg Complex.im hc
        simp at hre him
        exact ⟨hre, him⟩
      have habs : Complex.abs (↑u + ↑v * Complex.I) = d := by
        rw [Complex.abs_apply, Complex.normSq_add_mul_I, hd]
      have hdpos : 0 < d := by
        rcases lt_or_eq_of_le hdnn with hlt | heq
        · exact hlt
        · exfalso
          apply hz
          rw [← habs] at heq
          exact Complex.abs.eq_zero.mp heq.symm
      have hcosθ : Real.cos θ = u / d := by
        rw [hθ, atan2, Complex.cos_arg hz]
        simp [habs]
      have hsinθ : Real.sin θ = v / d := by
        rw [hθ, atan2, Complex.sin_arg]
        simp [habs]
      constructor
      · rw [hcosθ]
        field_simp
      · rw [hsinθ]
        field_simp
  rw [hfromPt]
  simp only [Point3.fromHsl]
  ext
  · show 0.5 + (if inv then
        1 - (if inv then 1 - d / 0.5 else d / 0.5) else
        (if inv then 1 - d / 0.5 else d / 0.5)) * 0.5
      * Real.cos ((360 + θ * (180 / Real.pi) - 360 * k) / (180 / Real.pi)) = x
    rw [hlr, hcosrad, hdcos.1, hu]
    ring
  · show 0.5 + (if inv then
        1 - (if inv then 1 - d / 0.5 else d / 0.5) else
        (if inv then 1 - d / 0.5 else d / 0.5)) * 0.5
      * Real.sin ((360 + θ * (180 / Real.pi) - 360 * k) / (180 / Real.pi)) = y
    rw [hlr, hsinrad, hdcos.2, hv]
    ring
  · rfl

/-! ## C3: ColorPoint mutators and the dual-representation invariant -/

/-- C3 counterexample: set_inverted only stores the flag, so after
set_inverted(true) on a point built at lightness 1 the stored color no
longer converts to the stored Cartesian point under the current flag. -/
theorem c3_set_inverted_breaks_agreement :
    Point3.fromHsl (c3Sample.set_inverted true).color
        (c3Sample.set_inverted true).inverted
      ≠ (c3Sample.set_inverted true).point := by
  intro hEq
  have hx := congrArg Point3.x hEq
  simp only [c3Sample, ColorPoint.set_inverted, ColorPoint.ofHsl,
    Point3.fromHsl] at hx
  rw [show (0:ℝ) / (180 / Real.pi) = 0 by simp, Real.cos_zero] at hx
  norm_num at hx

/-- C3 amended: set_postion, set_hsl and shift_hue re-derive the other
representation, so afterwards the stored color converts to the stored point
under the current flag; set_inverted only records the new flag and leaves
both representations untouched. -/
theorem c3_mutators_rederive (c : ColorPoint) (p : Point3) (hsl : Hsl)
    (a : ℝ) (b : Bool) :
    Point3.fromHsl (c.set_postion p).color (c.set_postion p).inverted
        = (c.set_postion p).point ∧
    Point3.fromHsl (c.set_hsl hsl).color (c.set_hsl hsl).inverted
        = (c.set_hsl hsl).point ∧
    Point3.fromHsl (c.shift_hue a).color (c.shift_hue a).inverted
        = (c.shift_hue a).point ∧
    ((c.set_inverted b).color = c.color ∧ (c.set_inverted b).point = c.point ∧
      (c.set_inverted b).inverted = b) := by
  refine ⟨?_, rfl, rfl, rfl, rfl, rfl⟩
  exact point_hsl_point p c.inverted

/-! ## C4: which error kind each failure returns -/

/-- C4 counterexample: set_num_points(0) fails, but with the
InvalidAnchorColorCount kind (the insufficient-anchors variant), not with a
dedicated InvalidPointsPerSegment kind. -/
theorem c4_num_points_error_kind :
    samplePoline.set_num_points 0
        = some (.error .InvalidAnchorColorCount, samplePoline) ∧
      PolineError.InvalidAnchorColorCount ≠ PolineError.InvalidPointsPerSegment := by
  constructor
  · rw [Poline.set_num_points, if_pos (by norm_num)]
  · decide

/-- C4 amended: a non-positive points-per-segment request returns the
InvalidAnchorColorCount kind (the same variant construction uses for too few
anchors, not a dedicated InvalidPointsPerSegment kind); construction with
fewer than 2 anchors returns InvalidAnchorColorCount; an out-of-range index
on remove or update returns PointIndexOutOfBounds.  Each is an explicit
result from the detecting operation. -/
theorem c4_error_kinds (p : Poline) (num : ℤ) (b : PolineBuilder)
    (i j : ℕ) (u : PointOrHsl)
    (hnum : num < 1) (hb : b.anchor_colors.length < 2)
    (hi : p.anchor_points.length ≤ i) (hj : p.anchor_points.length ≤ j) :
    p.set_num_points num = some (.error .InvalidAnchorColorCount, p) ∧
    b.build = .error .InvalidAnchorColorCount ∧
    p.remove_anchor_point i = (.error .PointIndexOutOfBounds, p) ∧
    p.update_anchor_point j u = (.error .PointIndexOutOfBounds, p) := by
  refine ⟨?_, ?_, ?_, ?_⟩
  · rw [Poline.set_num_points, if_pos hnum]
  · rw [PolineBuilder.build, if_pos hb]
  · rw [Poline.remove_anchor_point, if_pos hi]
  · rw [Poline.update_anchor_point, if_pos hj]

/-- C4 witness: the amended statement at concrete inputs. -/
theorem c4_error_kinds_witness :
    (0:ℤ) < 1 ∧ singleAnchorBuilder.anchor_colors.length < 2 ∧
    samplePoline.anchor_points.length ≤ 5 ∧
    (samplePoline.set_num_points 0
        = some (.error .InvalidAnchorColorCount, samplePoline) ∧
      singleAnchorBuilder.build = .error .InvalidAnchorColorCount ∧
      samplePoline.remove_anchor_point 5
        = (.error .PointIndexOutOfBounds, samplePoline) ∧
      samplePoline.update_anchor_point 5 (.Hsl ⟨0, 0, 0⟩)
        = (.error .PointIndexOutOfBounds, samplePoline)) :=
  ⟨by norm_num, by simp [singleAnchorBuilder], by simp [samplePoline],
    c4_error_kinds samplePoline 0 singleAnchorBuilder 5 5 (.Hsl ⟨0, 0, 0⟩)
      (by norm_num) (by simp [singleAnchorBuilder]) (by simp [samplePoline])
      (by simp [samplePoline])⟩

/-! ## C5: failing mutations return errors and leave the state unchanged -/

/-- C5: set_num_points(0) fails with an explicit error value and returns the
state unchanged; building from a single anchor fails; an out-of-range remove
or update also returns an explicit error with the state unchanged.  Every
error is an ordinary return value, not an abort. -/
theorem c5_failing_mutations_leave_state (p : Poline) (b : PolineBuilder)
    (i j : ℕ) (u : PointOrHsl)
    (hb : b.anchor_colors.length = 1)
    (hi : p.anchor_points.length ≤ i) (hj : p.anchor_points.length ≤ j) :
    p.set_num_points 0 = some (.error .InvalidAnchorColorCount, p) ∧
    b.build = .error .InvalidAnchorColorCount ∧
    p.remove_anchor_point i = (.error .PointIndexOutOfBounds, p) ∧
    p.update_anchor_point j u = (.error .PointIndexOutOfBounds, p) := by
  refine ⟨?_, ?_, ?_, ?_⟩
  · rw [Poline.set_num_points, if_pos (by norm_num)]
  · rw [PolineBuilder.build, if_pos (by rw [hb]; norm_num)]
  · rw [Poline.remove_anchor_point, if_pos hi]
  · rw [Poline.update_anchor_point, if_pos hj]

/-- C5 witness: the statement at concrete inputs. -/
theorem c5_failing_mutations_witness :
    singleAnchorBuilder.anchor_colors.length = 1 ∧
    samplePoline.anchor_points.length ≤ 7 ∧
    (samplePoline.set_num_points 0
        = some (.error .InvalidAnchorColorCount, samplePoline) ∧
      singleAnchorBuilder.build = .error .InvalidAnchorColorCount ∧
      samplePoline.remove_anchor_point 7
        = (.error .PointIndexOutOfBounds, samplePoline) ∧
      samplePoline.update_anchor_point 7 (.Point ⟨0, 0, 0⟩)
        = (.error .PointIndexOutOfBounds, samplePoline)) :=
  ⟨by simp [singleAnchorBuilder], by simp [samplePoline],
    c5_failing_mutations_leave_state samplePoline singleAnchorBuilder 7 7
      (.Point ⟨0, 0, 0⟩) (by simp [singleAnchorBuilder])
      (by simp [samplePoline]) (by simp [samplePoline])⟩

/-! ## C10: rebuilding with no anchors and closed_loop off aborts -/

/-- C10: with closed_loop off, set_anchor_points([]) reaches the unsigned
subtraction anchor-count minus 1 in the rebuild, which aborts with a panic
(modelled as none) instead of returning an error value. -/
theorem c10_empty_anchors_abort (p : Poline) (h : p.closed_loop = false) :
    p.set_anchor_points [] = none := by
  rw [Poline.set_anchor_points, Poline.update_anchor_pairs]
  simp [h]

/-- C10 witness: the abort on a concrete open engine. -/
theorem c10_empty_anchors_abort_witness :
    samplePoline.closed_loop = false ∧ samplePoline.set_anchor_points [] = none :=
  ⟨rfl, c10_empty_anchors_abort samplePoline rfl⟩

/-! ## C6: easing-curve endpoint and reflection identities -/

/-- C6 counterexample: the arc ease does not satisfy the reflection identity;
at t = 1/2 the inverted branch is the square root of 3/4 while the reflection
of the non-inverted branch is the square root of 1/2. -/
theorem c6_arc_not_reflected :
    arc_fn (1/2) true ≠ 1 - arc_fn (1 - 1/2) false := by
  simp only [arc_fn, if_true, Bool.false_eq_true, if_false]
  intro hEq
  have h1 : (1:ℝ) - (1 - 1/2) ^ 2 = 3/4 := by norm_num
  have h2 : (1:ℝ) - (1 - 1/2) = 1/2 := by norm_num
  rw [h1, h2] at hEq
  have h3 : Real.sqrt (3/4) = Real.sqrt (1/2) := by linarith
  have h4 := (Real.sqrt_inj (by norm_num) (by norm_num)).mp h3
  norm_num at h4

/-- C6 amended: every built-in curve satisfies f(0,false) = 0 and
f(1,false) = 1, and the reflection identity f(t,true) = 1 - f(1-t,false)
holds for the power curves, the sine ease and the arcsine ease on [0,1] --
but not for the arc ease, whose inverted branch is sqrt(1-(1-t)^2). -/
theorem c6_easing_properties (t : ℝ) (ht0 : 0 ≤ t) (ht1 : t ≤ 1) :
    (linear_fn 0 false = 0 ∧ linear_fn 1 false = 1) ∧
    (quadratic_fn 0 false = 0 ∧ quadratic_fn 1 false = 1) ∧
    (cubic_fn 0 false = 0 ∧ cubic_fn 1 false = 1) ∧
    (quartic_fn 0 false = 0 ∧ quartic_fn 1 false = 1) ∧
    (quintic_fn 0 false = 0 ∧ quintic_fn 1 false = 1) ∧
    (sinusoidal_fn 0 false = 0 ∧ sinusoidal_fn 1 false = 1) ∧
    (asinusoidal_fn 0 false = 0 ∧ asinusoidal_fn 1 false = 1) ∧
    (arc_fn 0 false = 0 ∧ arc_fn 1 false = 1) ∧
    (smooth_step_fn 0 false = 0 ∧ smooth_step_fn 1 false = 1) ∧
    quadratic_fn t true = 1 - quadratic_fn (1 - t) false ∧
    cubic_fn t true = 1 - cubic_fn (1 - t) false ∧
    quartic_fn t true = 1 - quartic_fn (1 - t) false ∧
    quintic_fn t true = 1 - quintic_fn (1 - t) false ∧
    sinusoidal_fn t true = 1 - sinusoidal_fn (1 - t) false ∧
    asinusoidal_fn t true = 1 - asinusoidal_fn (1 - t) false := by
  have hpi2 : Real.pi / 2 ≠ 0 := by
    have := Real.pi_pos
    positivity
  refine ⟨⟨rfl, rfl⟩, ?_, ?_, ?_, ?_, ?_, ?_, ?_, ?_, rfl, rfl, rfl, rfl,
    rfl, rfl⟩
  · constructor <;> simp [quadratic_fn]
  · constructor <;> simp [cubic_fn]
  · constructor <;> simp [quartic_fn]
  · constructor <;> simp [quintic_fn]
  · constructor <;> simp [sinusoidal_fn, Real.sin_pi_div_two]
  · constructor <;> simp [asinusoidal_fn, Real.arcsin_one, Real.arcsin_zero,
      div_self hpi2]
  · constructor <;> simp [arc_fn]
  · constructor <;> norm_num [smooth_step_fn]

/-- C6 witness: the amended statement at t = 1/2. -/
theorem c6_easing_properties_witness :
    (0:ℝ) ≤ 1/2 ∧ (1/2:ℝ) ≤ 1 ∧
    quadratic_fn (1/2) true = 1 - quadratic_fn (1 - 1/2) false ∧
    sinusoidal_fn (1/2) true = 1 - sinusoidal_fn (1 - 1/2) false :=
  ⟨by norm_num, by norm_num,
    (c6_easing_properties (1/2) (by norm_num) (by norm_num)).2.2.2.2.2.2.2.2.2.1,
    (c6_easing_properties (1/2) (by norm_num) (by norm_num)).2.2.2.2.2.2.2.2.2.2.2.2.2.1⟩

/-! ## C7: HSL to Cartesian and back -/

/-- C7 counterexample: the round trip is not exact for every Hsl value; at
lightness 0 the point collapses to the centre and the hue comes back as 0,
not 90. -/
theorem c7_round_trip_fails_at_center :
    Hsl.fromPoint (Point3.fromHsl ⟨90, 0, 0⟩ false) false ≠ ⟨90, 0, 0⟩ := by
  intro hEq
  have hpt : Point3.fromHsl ⟨90, 0, 0⟩ false = ⟨0.5, 0.5, 0⟩ := by
    ext <;> simp [Point3.fromHsl]
  rw [hpt] at hEq
  have hh := congrArg Hsl.h hEq
  simp only [Hsl.fromPoint] at hh
  rw [show (0.5:ℝ) - 0.5 = 0 by norm_num] at hh
  rw [show atan2 0 0 = 0 by simp [atan2]] at hh
  rw [show (0:ℝ) * (180 / Real.pi) = 0 by ring] at hh
  rw [show (360:ℝ) + 0 = 360 by ring] at hh
  rw [show fmod 360 360 = 0 by
    have := fmod_eq_sub 360 1 (by norm_num) (by norm_num) (by norm_num)
    rw [this]; norm_num] at hh
  norm_num at hh

/-- C7 amended: the HSL to Point3 to HSL round trip is exact (over the
reals) whenever the hue lies in [0, 360) and the polar radius is positive,
i.e. lightness is above 0 when not inverted and below 1 when inverted;
saturation always passes through unchanged. -/
theorem c7_hsl_round_trip (hsl : Hsl) (inv : Bool)
    (h0 : 0 ≤ hsl.h) (h1 : hsl.h < 360)
    (hr : 0 < (if inv then 1 - hsl.l else hsl.l)) :
    Hsl.fromPoint (Point3.fromHsl hsl inv) inv = hsl :=
  hsl_point_hsl hsl inv h0 h1 hr

/-- C7 witness: the round trip at hue 90, saturation 0.3, lightness 0.5,
flag false. -/
theorem c7_hsl_round_trip_witness :
    (0:ℝ) ≤ (90:ℝ) ∧ (90:ℝ) < 360 ∧
    Hsl.fromPoint (Point3.fromHsl ⟨90, 0.3, 0.5⟩ false) false = ⟨90, 0.3, 0.5⟩ :=
  ⟨by norm_num, by norm_num,
    c7_hsl_round_trip ⟨90, 0.3, 0.5⟩ false (by norm_num) (by norm_num)
      (by norm_num)⟩

/-! ## C1: remove/update do not rebuild the derived caches -/

/-- C1 failing input: after a successful rebuild of the three-anchor sample,
remove_anchor_point(0) leaves anchor_pairs with its stale 2 pairs (still
containing the removed anchor), while a fresh rebuild over the remaining two
anchors would produce 1 pair; the code skips the rebuild that the
specification requires after every structural mutation. -/
theorem c1_remove_leaves_stale_caches :
    (samplePoline.update_anchor_pairs.map fun p0 =>
      ((p0.remove_anchor_point 0).2.anchor_pairs.length,
        (p0.remove_anchor_point 0).2.update_anchor_pairs.map
          fun q => q.anchor_pairs.length))
    = some (2, some 1) := rfl

/-! ## C8: nearest-anchor query -/

theorem distance_hsl_eval (a b : Hsl) :
    (PartialPoint3.ofHsl a).distance (PartialPoint3.ofHsl b) none
      = Real.sqrt ((a.h - b.h) * (a.h - b.h) + (b.s - a.s) * (b.s - a.s)
          + (b.l - a.l) * (b.l - a.l)) := rfl

/-- C8: the nearest-anchor query returns none on an empty anchor list, and
on anchors at hues 0 and 180 with a hue-170 query (matching saturation and
lightness) it returns the hue-180 anchor at distance 10, because the default
comparison uses the plain signed hue difference, not the circular one. -/
theorem c8_closest_anchor (p : Poline) (q : PointOrHsl)
    (h : p.anchor_points = []) :
    p.get_closest_anchor_point q = none ∧
    twoHuePoline.get_closest_anchor_point (.Hsl ⟨170, 0.5, 0.5⟩)
      = some (hueAnchor180, 10) := by
  constructor
  · cases q <;> simp [Poline.get_closest_anchor_point, h, minByVal]
  · have hc0 : hueAnchor0.color = ⟨0, 0.5, 0.5⟩ := rfl
    have hc180 : hueAnchor180.color = ⟨180, 0.5, 0.5⟩ := rfl
    have hd0 : (PartialPoint3.ofHsl hueAnchor0.color).distance
        (PartialPoint3.ofHsl ⟨170, 0.5, 0.5⟩) none = 170 := by
      rw [hc0, distance_hsl_eval]
      norm_num
      rw [show (28900:ℝ) = 170 ^ 2 by norm_num]
      exact Real.sqrt_sq (by norm_num)
    have hd180 : (PartialPoint3.ofHsl hueAnchor180.color).distance
        (PartialPoint3.ofHsl ⟨170, 0.5, 0.5⟩) none = 10 := by
      rw [hc180, distance_hsl_eval]
      norm_num
      rw [show (100:ℝ) = 10 ^ 2 by norm_num]
      exact Real.sqrt_sq (by norm_num)
    simp only [Poline.get_closest_anchor_point, twoHuePoline, List.map_cons,
      List.map_nil]
    rw [hd0, hd180]
    simp only [List.enum, List.enumFrom, minByVal, List.foldl]
    rw [if_pos (by norm_num : (10:ℝ) < 170)]
    simp

/-- C8 witness: the empty-anchor branch at a concrete engine and query. -/
theorem c8_closest_anchor_witness :
    emptyPoline.anchor_points = [] ∧
    (emptyPoline.get_closest_anchor_point (.Hsl ⟨0, 0, 0⟩) = none ∧
      twoHuePoline.get_closest_anchor_point (.Hsl ⟨170, 0.5, 0.5⟩)
        = some (hueAnchor180, 10)) :=
  ⟨rfl, c8_closest_anchor emptyPoline (.Hsl ⟨0, 0, 0⟩) rfl⟩

/-! ## C9: shifting every hue by 180 twice is the identity on hues -/

theorem update_anchor_pairs_anchors (p q : Poline)
    (h : p.update_anchor_pairs = some q) :
    q.anchor_points = p.anchor_points := by
  rw [Poline.update_anchor_pairs] at h
  obtain ⟨len, _, hq⟩ := Option.map_eq_some'.mp h
  rw [← hq]

theorem shift_hue_twice (c : ColorPoint)
    (h0 : 0 ≤ c.color.h) (h1 : c.color.h < 360) :
    ((c.shift_hue 180).shift_hue 180).color.h = c.color.h := by
  have hstep : ∀ x : ℝ, 0 ≤ x → x < 360 →
      fmod (360 + (x + 180)) 360 = if x < 180 then x + 180 else x - 180 := by
    intro x hx0 hx1
    by_cases hc : x < 180
    · rw [if_pos hc,
        fmod_eq_sub (360 + (x + 180)) 1 (by linarith) (by push_cast; linarith)
          (by push_cast; linarith)]
      ring
    · push_neg at hc
      rw [if_neg (by linarith),
        fmod_eq_sub (360 + (x + 180)) 2 (by linarith) (by push_cast; linarith)
          (by push_cast; linarith)]
      ring
  have hfirst : (c.shift_hue 180).color.h = fmod (360 + (c.color.h + 180)) 360 :=
    rfl
  have hsecond : ((c.shift_hue 180).shift_hue 180).color.h
      = fmod (360 + ((c.shift_hue 180).color.h + 180)) 360 := rfl
  rw [hsecond, hfirst, hstep c.color.h h0 h1]
  by_cases hc : c.color.h < 180
  · rw [if_pos hc, hstep (c.color.h + 180) (by linarith) (by linarith),
      if_neg (by linarith)]
    ring
  · push_neg at hc
    rw [if_neg (by linarith), hstep (c.color.h - 180) (by linarith) (by linarith),
      if_pos (by linarith)]
    ring

/-- C9: shift_hue adds the offset modulo 360 to every anchor hue and
rebuilds; if all anchor hues lie in [0, 360), two successive shifts by 180
restore every anchor hue exactly. -/
theorem c9_double_shift_restores_hues (p q r : Poline)
    (hh : ∀ c ∈ p.anchor_points, 0 ≤ c.color.h ∧ c.color.h < 360)
    (h1 : p.shift_hue (some 180) = some q)
    (h2 : q.shift_hue (some 180) = some r) :
    r.anchor_points.map (fun c => c.color.h)
      = p.anchor_points.map (fun c => c.color.h) := by
  rw [Poline.shift_hue] at h1 h2
  have ha1 : q.anchor_points
      = p.anchor_points.map (fun a => a.shift_hue ((some (180:ℝ)).getD 20)) :=
    update_anchor_pairs_anchors _ q h1
  have ha2 : r.anchor_points
      = q.anchor_points.map (fun a => a.shift_hue ((some (180:ℝ)).getD 20)) :=
    update_anchor_pairs_anchors _ r h2
  rw [ha2, ha1, List.map_map, List.map_map]
  apply List.map_congr_left
  intro a hap
  show ((a.shift_hue ((some (180:ℝ)).getD 20)).shift_hue
    ((some (180:ℝ)).getD 20)).color.h = a.color.h
  rw [show (some (180:ℝ)).getD 20 = 180 from rfl]
  exact shift_hue_twice a (hh a hap).1 (hh a hap).2

/-- C9 witness: a closed single-anchor engine at hue 0; both shifts and both
rebuilds are fully explicit. -/
theorem c9_double_shift_witness :
    (∀ c ∈ c9Start.anchor_points, 0 ≤ c.color.h ∧ c.color.h < 360) ∧
    c9Start.shift_hue (some 180) = some c9Mid ∧
    c9Mid.shift_hue (some 180) = some c9End ∧
    c9End.anchor_points.map (fun c => c.color.h)
      = c9Start.anchor_points.map (fun c => c.color.h) := by
  have hh : ∀ c ∈ c9Start.anchor_points, 0 ≤ c.color.h ∧ c.color.h < 360 := by
    intro c hc
    rw [show c9Start.anchor_points = [c9Anchor] from rfl, List.mem_singleton] at hc
    rw [hc, show c9Anchor.color = ⟨0, 0.5, 0.5⟩ from rfl]
    norm_num
  have h1 : c9Start.shift_hue (some 180) = some c9Mid := rfl
  have h2 : c9Mid.shift_hue (some 180) = some c9End := rfl
  exact ⟨hh, h1, h2, c9_double_shift_restores_hues c9Start c9Mid c9End hh h1 h2⟩

/-! ## C2: open three-anchor engine with four points per segment -/

theorem sinusoidal_zero_of (inv : Bool) : sinusoidal_fn 0 inv = 0 := by
  cases inv
  · simp [sinusoidal_fn]
  · norm_num [sinusoidal_fn, Real.sin_pi_div_two]

theorem sinusoidal_one_of (inv : Bool) : sinusoidal_fn 1 inv = 1 := by
  cases inv
  · norm_num [sinusoidal_fn, Real.sin_pi_div_two]
  · norm_num [sinusoidal_fn, Real.sin_zero]

theorem vector_on_line_zero (p1 p2 : Point3) (inv : Bool)
    (fx fy fz : Transformer) (hx : fx 0 inv = 0) (hy : fy 0 inv = 0)
    (hz : fz 0 inv = 0) :
    vector_on_line 0 p1 p2 inv fx fy fz = p1 := by
  ext <;> simp [vector_on_line, hx, hy, hz]

theorem vector_on_line_one (p1 p2 : Point3) (inv : Bool)
    (fx fy fz : Transformer) (hx : fx 1 inv = 1) (hy : fy 1 inv = 1)
    (hz : fz 1 inv = 1) :
    vector_on_line 1 p1 p2 inv fx fy fz = p2 := by
  ext <;> simp [vector_on_line, hx, hy, hz]

theorem vectors_on_line_four (p1 p2 : Point3) (inv : Bool)
    (fx fy fz : Transformer) :
    vectors_on_line p1 p2 4 inv fx fy fz
      = [vector_on_line 0 p1 p2 inv fx fy fz,
         vector_on_line (1/3) p1 p2 inv fx fy fz,
         vector_on_line (2/3) p1 p2 inv fx fy fz,
         vector_on_line 1 p1 p2 inv fx fy fz] := by
  rw [vectors_on_line, show ((4:ℤ)).toNat = 4 from rfl,
    show List.range 4 = [0, 1, 2, 3] from rfl]
  norm_num

theorem ofPoint_ofHsl (X : Hsl) (h0 : 0 ≤ X.h) (h1 : X.h < 360)
    (hl : 0 < X.l) :
    ColorPoint.ofPoint (Point3.fromHsl X false) false
      = ColorPoint.ofHsl X false := by
  have hc := hsl_point_hsl X false h0 h1 (by simpa using hl)
  rw [ColorPoint.ofPoint, ColorPoint.ofHsl, hc]

/-- C2: building an open Poline from anchors [A, B, C] with four points per
segment (the stored num_points, which counts both segment endpoints, so the
builder's intermediate-point count is 2) yields a flattened sequence of
length 2*4 - 1 = 7 whose elements at indices 0, 3 and 6 are the anchors A, B
and C.  Anchor hues are taken in [0, 360) with positive lightness so that
each interpolation endpoint converts back to exactly the anchor. -/
theorem c2_flattened_endpoints (A B C : Hsl)
    (hA0 : 0 ≤ A.h) (hA1 : A.h < 360) (hAl : 0 < A.l)
    (hB0 : 0 ≤ B.h) (hB1 : B.h < 360) (hBl : 0 < B.l)
    (hC0 : 0 ≤ C.h) (hC1 : C.h < 360) (hCl : 0 < C.l) :
    (openTriBuilder A B C).build = .ok (some (c2Result A B C)) ∧
    (c2Result A B C).num_points = 4 ∧
    (c2Result A B C).flattened_points.length = 7 ∧
    (c2Result A B C).flattened_points.get? 0 = some (ColorPoint.ofHsl A false) ∧
    (c2Result A B C).flattened_points.get? 3 = some (ColorPoint.ofHsl B false) ∧
    (c2Result A B C).flattened_points.get? 6 = some (ColorPoint.ofHsl C false) := by
  have hflat : (c2Result A B C).points.flatten
      = [ColorPoint.ofPoint (vector_on_line 0 (Point3.fromHsl A false)
            (Point3.fromHsl B false) true sinusoidal_fn sinusoidal_fn sinusoidal_fn) false,
          ColorPoint.ofPoint (vector_on_line (1/3) (Point3.fromHsl A false)
            (Point3.fromHsl B false) true sinusoidal_fn sinusoidal_fn sinusoidal_fn) false,
          ColorPoint.ofPoint (vector_on_line (2/3) (Point3.fromHsl A false)
            (Point3.fromHsl B false) true sinusoidal_fn sinusoidal_fn sinusoidal_fn) false,
          ColorPoint.ofPoint (vector_on_line 1 (Point3.fromHsl A false)
            (Point3.fromHsl B false) true sinusoidal_fn sinusoidal_fn sinusoidal_fn) false,
          ColorPoint.ofPoint (vector_on_line 0 (Point3.fromHsl B false)
            (Point3.fromHsl C false) false sinusoidal_fn sinusoidal_fn sinusoidal_fn) false,
          ColorPoint.ofPoint (vector_on_line (1/3) (Point3.fromHsl B false)
            (Point3.fromHsl C false) false sinusoidal_fn sinusoidal_fn sinusoidal_fn) false,
          ColorPoint.ofPoint (vector_on_line (2/3) (Point3.fromHsl B false)
            (Point3.fromHsl C false) false sinusoidal_fn sinusoidal_fn sinusoidal_fn) false,
          ColorPoint.ofPoint (vector_on_line 1 (Point3.fromHsl B false)
            (Point3.fromHsl C false) false sinusoidal_fn sinusoidal_fn sinusoidal_fn) false] := by
    rw [show (c2Result A B C).points
        = [(vectors_on_line (Point3.fromHsl A false) (Point3.fromHsl B false)
            4 true sinusoidal_fn sinusoidal_fn sinusoidal_fn).map
              fun q => ColorPoint.ofPoint q false,
          (vectors_on_line (Point3.fromHsl B false) (Point3.fromHsl C false)
            4 false sinusoidal_fn sinusoidal_fn sinusoidal_fn).map
              fun q => ColorPoint.ofPoint q false] from rfl,
      vectors_on_line_four, vectors_on_line_four]
    rfl
  refine ⟨rfl, rfl, ?_, ?_, ?_, ?_⟩
  · rw [Poline.flattened_points,
      show (c2Result A B C).num_points.toNat = 4 from rfl, hflat]
    simp [List.enum, List.enumFrom, List.filterMap_cons]
  · rw [Poline.flattened_points,
      show (c2Result A B C).num_points.toNat = 4 from rfl, hflat,
      vector_on_line_zero (Point3.fromHsl A false) (Point3.fromHsl B false)
        true sinusoidal_fn sinusoidal_fn sinusoidal_fn (sinusoidal_zero_of true)
        (sinusoidal_zero_of true) (sinusoidal_zero_of true),
      ofPoint_ofHsl A hA0 hA1 hAl]
    simp [List.enum, List.enumFrom, List.filterMap_cons]
  · rw [Poline.flattened_points,
      show (c2Result A B C).num_points.toNat = 4 from rfl, hflat,
      vector_on_line_one (Point3.fromHsl A false) (Point3.fromHsl B false)
        true sinusoidal_fn sinusoidal_fn sinusoidal_fn (sinusoidal_one_of true)
        (sinusoidal_one_of true) (sinusoidal_one_of true),
      ofPoint_ofHsl B hB0 hB1 hBl]
    simp [List.enum, List.enumFrom, List.filterMap_cons]
  · rw [Poline.flattened_points,
      show (c2Result A B C).num_points.toNat = 4 from rfl, hflat,
      vector_on_line_one (Point3.fromHsl B false) (Point3.fromHsl C false)
        false sinusoidal_fn sinusoidal_fn sinusoidal_fn (sinusoidal_one_of false)
        (sinusoidal_one_of false) (sinusoidal_one_of false),
      ofPoint_ofHsl C hC0 hC1 hCl]
    simp [List.enum, List.enumFrom, List.filterMap_cons]

/-- C2 witness: the statement at anchors with hues 0, 90, 180 (saturation
and lightness one half). -/
theorem c2_flattened_endpoints_witness :
    (0:ℝ) ≤ (0:ℝ) ∧ (0:ℝ) < 360 ∧ (0:ℝ) < 0.5 ∧
    ((openTriBuilder ⟨0, 0.5, 0.5⟩ ⟨90, 0.5, 0.5⟩ ⟨180, 0.5, 0.5⟩).build
        = .ok (some (c2Result ⟨0, 0.5, 0.5⟩ ⟨90, 0.5, 0.5⟩ ⟨180, 0.5, 0.5⟩)) ∧
      (c2Result ⟨0, 0.5, 0.5⟩ ⟨90, 0.5, 0.5⟩ ⟨180, 0.5, 0.5⟩).num_points = 4 ∧
      (c2Result ⟨0, 0.5, 0.5⟩ ⟨90, 0.5, 0.5⟩ ⟨180, 0.5, 0.5⟩).flattened_points.length = 7 ∧
      (c2Result ⟨0, 0.5, 0.5⟩ ⟨90, 0.5, 0.5⟩ ⟨180, 0.5, 0.5⟩).flattened_points.get? 0
        = some (ColorPoint.ofHsl ⟨0, 0.5, 0.5⟩ false) ∧
      (c2Result ⟨0, 0.5, 0.5⟩ ⟨90, 0.5, 0.5⟩ ⟨180, 0.5, 0.5⟩).flattened_points.get? 3
        = some (ColorPoint.ofHsl ⟨90, 0.5, 0.5⟩ false) ∧
      (c2Result ⟨0, 0.5, 0.5⟩ ⟨90, 0.5, 0.5⟩ ⟨180, 0.5, 0.5⟩).flattened_points.get? 6
        = some (ColorPoint.ofHsl ⟨180, 0.5, 0.5⟩ false)) :=
  ⟨by norm_num, by norm_num, by norm_num,
    c2_flattened_endpoints ⟨0, 0.5, 0.5⟩ ⟨90, 0.5, 0.5⟩ ⟨180, 0.5, 0.5⟩
      (by norm_num) (by norm_num) (by norm_num) (by norm_num) (by norm_num)
      (by norm_num) (by norm_num) (by norm_num) (by norm_num)⟩

end PolineRs
